import Mathlib

/-!
Verification development for the MyLocalCLI core: the tool-call parser,
the tool dispatcher (write_file / edit_file / multi_edit_file), the fuzzy
edit engine, the command safety classifier, the cross-platform command
translator and executor, and the chat turn result-injection step.

The JavaScript source is shallowly embedded: strings are Lean `String`s
(the inputs of interest are ASCII), JavaScript objects parsed from JSON
are a `Json` inductive, side effects (filesystem reads/writes, prompts,
process spawns) are recorded as explicit event traces, and uncaught
exceptions are an explicit outcome constructor.
-/

namespace MyLocalCLI

/-! ### Basic character and string utilities -/

/-- Whitespace class of a JavaScript regular-expression character class
matching blanks (ASCII part): space, tab, newline, carriage return,
vertical tab, form feed. -/
def isJsWs (c : Char) : Bool :=
  c = ' ' || c = '\t' || c = '\n' || c = '\r' || c = '\x0b' || c = '\x0c'

/-- JavaScript `String.prototype.trim` (ASCII whitespace). -/
def jsTrimCs (l : List Char) : List Char :=
  ((l.dropWhile isJsWs).reverse.dropWhile isJsWs).reverse

def jsTrim (s : String) : String :=
  String.mk (jsTrimCs s.data)

/-- JavaScript `String.prototype.toLowerCase` (ASCII). -/
def jsToLower (s : String) : String :=
  String.mk (s.data.map Char.toLower)

/-- JavaScript `String.prototype.slice(0, n)`. -/
def strTake (n : Nat) (s : String) : String :=
  String.mk (s.data.take n)

/-- First index of `pat` as a contiguous sublist of `l`, if any. -/
def findSub : List Char → List Char → Option Nat
  | l, pat =>
    match l with
    | [] => if pat.isEmpty then some 0 else none
    | _ :: tl =>
      if pat.isPrefixOf l then some 0
      else (findSub tl pat).map (· + 1)

/-- JavaScript `String.prototype.includes`. -/
def strContains (s pat : String) : Bool :=
  (findSub s.data pat.data).isSome

/-- JavaScript `String.prototype.startsWith`. -/
def strStarts (s pat : String) : Bool :=
  pat.data.isPrefixOf s.data

/-- Replace the first occurrence of `pat` in `l` by `rep`
(JavaScript `String.prototype.replace` with a plain-string pattern;
dollar escape sequences in the replacement are not modelled, all
replacement strings of interest are free of them). -/
def replaceFirstCs (l pat rep : List Char) : List Char :=
  match findSub l pat with
  | none => l
  | some i => l.take i ++ rep ++ l.drop (i + pat.length)

def replaceFirst (s pat rep : String) : String :=
  String.mk (replaceFirstCs s.data pat.data rep.data)

/-- Replace all occurrences, scanning left to right and resuming after
each inserted replacement (JavaScript `replace` with a global regex whose
pattern is a literal string). Fuel bounds the recursion. -/
def replaceAllCsFuel : Nat → List Char → List Char → List Char → List Char
  | 0, l, _, _ => l
  | f + 1, l, pat, rep =>
    match findSub l pat with
    | none => l
    | some i =>
      match pat with
      | [] => l
      | _ :: _ =>
        l.take i ++ rep ++ replaceAllCsFuel f (l.drop (i + pat.length)) pat rep

def replaceAll (s pat rep : String) : String :=
  String.mk (replaceAllCsFuel (s.data.length + 1) s.data pat.data rep.data)

/-- All indices `n` of `l` (inclusive of `l.length`) where `pat` starts. -/
def occPositions (l pat : List Char) : List Nat :=
  (List.range (l.length + 1)).filter (fun n => pat.isPrefixOf (l.drop n))

/-- First element of `cands` on which `f` succeeds, with its result. -/
def firstSome {α β : Type} (f : α → Option β) : List α → Option β
  | [] => none
  | a :: rest =>
    match f a with
    | some b => some b
    | none => firstSome f rest

/-- Split on runs of whitespace, as JavaScript `split(/\s+/)` on a
string with no leading whitespace. Fuel bounds the recursion. -/
def splitWsFuel : Nat → List Char → List Char → List String
  | 0, _, acc => [String.mk acc.reverse]
  | _ + 1, [], acc => [String.mk acc.reverse]
  | f + 1, c :: rest, acc =>
    if isJsWs c then
      String.mk acc.reverse :: splitWsFuel f (rest.dropWhile isJsWs) []
    else
      splitWsFuel f rest (c :: acc)

def splitWs (s : String) : List String :=
  splitWsFuel (s.data.length + 1) s.data []

/-! ### A model of JavaScript JSON values and `JSON.parse` -/

/-- JSON values as produced by `JSON.parse`. Numbers are modelled as
integers: every numeric literal in the parsed payloads of interest is an
integer, and a fractional literal simply fails this parser (such a
payload never decides any verified property). -/
inductive Json where
  | null
  | bool (b : Bool)
  | num (n : Int)
  | str (s : String)
  | arr (elems : List Json)
  | obj (fields : List (String × Json))

/-- JavaScript truthiness of a parsed JSON value (objects and arrays are
always truthy, including empty ones). -/
def Json.truthy : Json → Bool
  | .null => false
  | .bool b => b
  | .num n => n != 0
  | .str s => s != ""
  | .arr _ => true
  | .obj _ => true

/-- Property access `value[key]` on a parsed JSON value: on an object the
last binding of the key wins (as in `JSON.parse` with duplicate keys),
anything else yields `undefined`, modelled as `none`. -/
def Json.get? : Json → String → Option Json
  | .obj fields, k => (fields.reverse.find? (fun f => f.1 == k)).map (·.2)
  | _, _ => none

/-- Truthiness of a possibly-`undefined` value. -/
def jsTruthy : Option Json → Bool
  | none => false
  | some v => v.truthy

def jsonWsChar (c : Char) : Bool :=
  c = ' ' || c = '\t' || c = '\n' || c = '\r'

def jsonSkipWs (l : List Char) : List Char :=
  l.dropWhile jsonWsChar

/-- Parse the body of a JSON string literal (after the opening quote),
returning the decoded characters and the input after the closing quote.
Common escapes are supported; `\\u` escapes are not (none occur in any
input of interest, and such a payload merely fails to parse). -/
def parseJsonStringBody : Nat → List Char → Option (List Char × List Char)
  | 0, _ => none
  | _ + 1, [] => none
  | f + 1, c :: rest =>
    if c = '"' then some ([], rest)
    else if c = '\\' then
      match rest with
      | [] => none
      | e :: rest2 =>
        let dec : Option Char :=
          if e = '"' then some '"'
          else if e = '\\' then some '\\'
          else if e = '/' then some '/'
          else if e = 'n' then some '\n'
          else if e = 't' then some '\t'
          else if e = 'r' then some '\r'
          else if e = 'b' then some '\x08'
          else if e = 'f' then some '\x0c'
          else none
        match dec with
        | none => none
        | some d =>
          match parseJsonStringBody f rest2 with
          | none => none
          | some (cs, rem) => some (d :: cs, rem)
    else
      match parseJsonStringBody f rest with
      | none => none
      | some (cs, rem) => some (c :: cs, rem)

def parseJsonDigits (l : List Char) : Option (Nat × List Char) :=
  let ds := l.takeWhile Char.isDigit
  if ds.isEmpty then none
  else some (ds.foldl (fun acc c => acc * 10 + (c.toNat - 48)) 0, l.drop ds.length)

mutual

/-- Parse one JSON value (leading whitespace allowed), returning the
value and the rest of the input. -/
def parseJsonValue : Nat → List Char → Option (Json × List Char)
  | 0, _ => none
  | f + 1, l =>
    let l := jsonSkipWs l
    match l with
    | [] => none
    | c :: rest =>
      if c = '"' then
        match parseJsonStringBody (rest.length + 1) rest with
        | none => none
        | some (cs, rem) => some (.str (String.mk cs), rem)
      else if c = '\x7b' then
        parseJsonObjFields f rest true
      else if c = '[' then
        parseJsonArrElems f rest true
      else if c = 't' then
        if ['r', 'u', 'e'].isPrefixOf rest then some (.bool true, rest.drop 3) else none
      else if c = 'f' then
        if ['a', 'l', 's', 'e'].isPrefixOf rest then some (.bool false, rest.drop 4) else none
      else if c = 'n' then
        if ['u', 'l', 'l'].isPrefixOf rest then some (.null, rest.drop 3) else none
      else if c = '-' then
        match parseJsonDigits rest with
        | none => none
        | some (n, rem) => some (.num (-(n : Int)), rem)
      else
        match parseJsonDigits (c :: rest) with
        | none => none
        | some (n, rem) => some (.num (n : Int), rem)

/-- Parse object fields after the opening brace; `first` is true when no
field has been consumed yet. -/
def parseJsonObjFields : Nat → List Char → Bool → Option (Json × List Char)
  | 0, _, _ => none
  | f + 1, l, first =>
    let l := jsonSkipWs l
    match l with
    | [] => none
    | c :: rest =>
      if c = '\x7d' then
        if first then some (.obj [], rest) else none
      else
        let afterSep : Option (List Char) :=
          if first then some (c :: rest)
          else if c = ',' then some (jsonSkipWs rest)
          else none
        match afterSep with
        | none => none
        | some l2 =>
          match l2 with
          | '"' :: kRest =>
            match parseJsonStringBody (kRest.length + 1) kRest with
            | none => none
            | some (kcs, afterKey) =>
              match jsonSkipWs afterKey with
              | ':' :: afterColon =>
                match parseJsonValue f afterColon with
                | none => none
                | some (v, afterVal) =>
                  match parseJsonObjRest f afterVal with
                  | none => none
                  | some (fields, rem) => some (.obj ((String.mk kcs, v) :: fields), rem)
              | _ => none
          | _ => none

/-- Parse the remaining `, "k": v` object fields up to the closing brace. -/
def parseJsonObjRest : Nat → List Char → Option (List (String × Json) × List Char)
  | 0, _ => none
  | f + 1, l =>
    match jsonSkipWs l with
    | '\x7d' :: rest => some ([], rest)
    | ',' :: rest =>
      match jsonSkipWs rest with
      | '"' :: kRest =>
        match parseJsonStringBody (kRest.length + 1) kRest with
        | none => none
        | some (kcs, afterKey) =>
          match jsonSkipWs afterKey with
          | ':' :: afterColon =>
            match parseJsonValue f afterColon with
            | none => none
            | some (v, afterVal) =>
              match parseJsonObjRest f afterVal with
              | none => none
              | some (fields, rem) => some ((String.mk kcs, v) :: fields, rem)
          | _ => none
      | _ => none
    | _ => none

/-- Parse array elements after the opening bracket. -/
def parseJsonArrElems : Nat → List Char → Bool → Option (Json × List Char)
  | 0, _, _ => none
  | f + 1, l, first =>
    let l := jsonSkipWs l
    match l with
    | [] => none
    | c :: rest =>
      if c = ']' then
        if first then some (.arr [], rest) else none
      else
        let start : Option (List Char) :=
          if first then some (c :: rest)
          else if c = ',' then some rest
          else none
        match start with
        | none => none
        | some l2 =>
          match parseJsonValue f l2 with
          | none => none
          | some (v, afterVal) =>
            match parseJsonArrRest f afterVal with
            | none => none
            | some (vs, rem) => some (.arr (v :: vs), rem)

/-- Parse the remaining `, v` array elements up to the closing bracket. -/
def parseJsonArrRest : Nat → List Char → Option (List Json × List Char)
  | 0, _ => none
  | f + 1, l =>
    match jsonSkipWs l with
    | ']' :: rest => some ([], rest)
    | ',' :: rest =>
      match parseJsonValue f rest with
      | none => none
      | some (v, afterVal) =>
        match parseJsonArrRest f afterVal with
        | none => none
        | some (vs, rem) => some (v :: vs, rem)
    | _ => none

end

/-- `JSON.parse`: the whole input must be one JSON document (whitespace
around it allowed); failure models the thrown `SyntaxError`, which every
caller in the parser swallows. -/
def jsonParse (s : String) : Option Json :=
  match parseJsonValue (s.data.length + 1) s.data with
  | none => none
  | some (v, rem) => if (jsonSkipWs rem).isEmpty then some v else none

/-! ### Tool call parser (`parseToolCalls`)

Each of the six recognized formats is scanned by a dedicated function
mirroring one `while ((match = pattern.exec(response)) !== null)` loop of
the source. The regular expressions are embedded by direct
implementation of their (deterministic) matching behaviour: lazy
quantifiers take the earliest viable extent, greedy ones the latest, and
a failed candidate start position advances the scan by one character. -/

structure ToolInvocation where
  name : Json
  arguments : Json

/-- The literal `"tool"` that both lazy payload patterns require. -/
def toolKeyPat : List Char := ['"', 't', 'o', 'o', 'l', '"']

def backtickFence : List Char := ['`', '`', '`']

/-- The integers `a, a+1, ..., b-1`. -/
def rangeFrom (a b : Nat) : List Nat :=
  (List.range b).drop a

/-- Shared matcher for the lazy payload `\x7b[\s\S]*?"tool"[\s\S]*?\x7d`:
earliest occurrence of `"tool"` after the brace, then the earliest
closing brace after it whose continuation satisfies `after`. Returns the
payload (brace to brace inclusive) and the input following it.
`l` must begin at the opening brace. -/
def lazyToolPayload (l : List Char) (after : List Char → Option (List Char)) :
    Option (List Char × List Char) :=
  match l with
  | '\x7b' :: body =>
    firstSome
      (fun p =>
        firstSome
          (fun q =>
            if l.getD q ' ' = '\x7d' then
              match after (l.drop (q + 1)) with
              | some rest => some (l.take (q + 1), rest)
              | none => none
            else none)
          (rangeFrom (p + 6) l.length))
      ((occPositions body toolKeyPat).map (· + 1))
  | _ => none

/-- Shared matcher for the lazy payload `\x7b[\s\S]*?\x7d` (no `"tool"`
requirement): earliest closing brace whose continuation satisfies
`after`. -/
def lazyBracePayload (l : List Char) (after : List Char → Option (List Char)) :
    Option (List Char × List Char) :=
  match l with
  | '\x7b' :: _ =>
    firstSome
      (fun q =>
        if l.getD q ' ' = '\x7d' then
          match after (l.drop (q + 1)) with
          | some rest => some (l.take (q + 1), rest)
          | none => none
        else none)
      (rangeFrom 1 l.length)
  | _ => none

/-- Format 1 body: after an opening ` ``` `, optionally `json`, then
whitespace, then the lazy `"tool"` payload, then whitespace and the
closing fence. -/
def fmt1Attempt (l : List Char) : Option (List Char × List Char) :=
  let l1 := if ['j', 's', 'o', 'n'].isPrefixOf l then l.drop 4 else l
  let l2 := l1.dropWhile isJsWs
  lazyToolPayload l2 (fun tail =>
    let tail2 := tail.dropWhile isJsWs
    if backtickFence.isPrefixOf tail2 then some (tail2.drop 3) else none)

/-- Push step shared by formats 1–3: parse the payload, require truthy
`tool` and `arguments` members, and emit the invocation. A parse failure
is swallowed. -/
def pushToolArguments (payload : List Char) : List ToolInvocation :=
  match jsonParse (String.mk payload) with
  | none => []
  | some parsed =>
    if jsTruthy (parsed.get? "tool") && jsTruthy (parsed.get? "arguments") then
      [⟨(parsed.get? "tool").getD .null, (parsed.get? "arguments").getD .null⟩]
    else []

/-- Generic `exec` loop: find the next occurrence of `marker`, run
`attempt` on the text after it; on success emit `push payload` and
resume after the match, on failure resume one character past the failed
start. -/
def scanLoop (marker : List Char)
    (attempt : List Char → Option (List Char × List Char))
    (push : List Char → List ToolInvocation) :
    Nat → List Char → List ToolInvocation
  | 0, _ => []
  | f + 1, l =>
    match findSub l marker with
    | none => []
    | some i =>
      match attempt (l.drop (i + marker.length)) with
      | some (payload, rest) => push payload ++ scanLoop marker attempt push f rest
      | none => scanLoop marker attempt push f (l.drop (i + 1))

/-- Format 1: ` ```(json)? \s* \x7b...\x7d \s* ``` `. -/
def scanFormat1 (response : String) : List ToolInvocation :=
  scanLoop backtickFence fmt1Attempt pushToolArguments
    (response.data.length + 1) response.data

/-- Format 2: `<|message|>` followed by the lazy `"tool"` payload, with
no trailing context. -/
def scanFormat2 (response : String) : List ToolInvocation :=
  scanLoop "<|message|>".data
    (fun l => lazyToolPayload (l.dropWhile isJsWs) (fun tail => some tail))
    pushToolArguments
    (response.data.length + 1) response.data

/-- Format 3 body after the literal `\x7b"tool"`: `\s*:\s*"name"` with a
nonempty name, then the earliest `"arguments"`, `\s*:\s*`, and the lazy
brace payload followed by `\s*\x7d`. Returns the full match (from the
opening brace to the final closing brace) and the rest. `l` starts
after the 7 marker characters; `pre` is the marker itself, re-attached to
rebuild the full match that the source hands to `JSON.parse`. -/
def fmt3Attempt (l : List Char) : Option (List Char × List Char) :=
  let afterColon := l.dropWhile isJsWs
  match afterColon with
  | ':' :: r1 =>
    let r2 := r1.dropWhile isJsWs
    match r2 with
    | '"' :: r3 =>
      let nameCs := r3.takeWhile (fun c => c ≠ '"')
      if nameCs.isEmpty then none
      else
        match r3.drop nameCs.length with
        | '"' :: r4 =>
          firstSome
            (fun aPos =>
              let afterArgsKey := r4.drop (aPos + 11)
              let r5 := afterArgsKey.dropWhile isJsWs
              match r5 with
              | ':' :: r6 =>
                let r7 := r6.dropWhile isJsWs
                lazyBracePayload r7 (fun tail =>
                  let tail2 := tail.dropWhile isJsWs
                  match tail2 with
                  | '\x7d' :: rest => some rest
                  | _ => none)
              | _ => none)
            (occPositions r4 "\"arguments\"".data)
        | _ => none
    | _ => none
  | _ => none

/-- Format 3 full-match reconstruction: the source parses `match[0]`,
the whole matched region. Because the attempt consumes up to the final
closing brace and returns the remainder, the full match is the region
between the marker start and that remainder. -/
def fmt3AttemptFull (l : List Char) : Option (List Char × List Char) :=
  match fmt3Attempt l with
  | none => none
  | some (_, rest) =>
    some ("\x7b\"tool\"".data ++ l.take (l.length - rest.length), rest)

/-- Format 3: bare `\x7b"tool" ... "arguments" ... \x7d` objects. -/
def scanFormat3 (response : String) : List ToolInvocation :=
  scanLoop "\x7b\"tool\"".data fmt3AttemptFull pushToolArguments
    (response.data.length + 1) response.data

/-- Format 4 push: the payload's members are `name`/`arguments`. -/
def pushNameArguments (payload : List Char) : List ToolInvocation :=
  match jsonParse (String.mk payload) with
  | none => []
  | some parsed =>
    if jsTruthy (parsed.get? "name") && jsTruthy (parsed.get? "arguments") then
      [⟨(parsed.get? "name").getD .null, (parsed.get? "arguments").getD .null⟩]
    else []

/-- Format 4: `<function_call> \s* \x7b...\x7d \s* </function_call>`. -/
def scanFormat4 (response : String) : List ToolInvocation :=
  scanLoop "<function_call>".data
    (fun l =>
      lazyBracePayload (l.dropWhile isJsWs) (fun tail =>
        let tail2 := tail.dropWhile isJsWs
        if "</function_call>".data.isPrefixOf tail2 then
          some (tail2.drop "</function_call>".data.length)
        else none))
    pushNameArguments
    (response.data.length + 1) response.data

def isWordChar (c : Char) : Bool :=
  c.isAlpha || c.isDigit || c = '_'

/-- Shared tail of formats 5 and 6: `[^\x7b]*\|message\|>\s*` then the lazy
brace payload with no trailing context. The greedy `[^\x7b]*` selects the
latest occurrence of `|message|>` that lies before the first opening
brace and admits a payload. -/
def channelPayload (l : List Char) : Option (List Char × List Char) :=
  let braceIdx := (l.takeWhile (fun c => c ≠ '\x7b')).length
  firstSome
    (fun s =>
      let afterMarker := l.drop (s + 10)
      lazyBracePayload (afterMarker.dropWhile isJsWs) (fun tail => some tail))
    (((occPositions l "|message|>".data).filter (· ≤ braceIdx)).reverse)

/-- Format 5 push: a `\x7bcmd: [...]\x7d` payload becomes a `run_command`
invocation whose command is the last element of `cmd` (a missing last
element leaves the `command` member absent, as assigning `undefined`
does). -/
def pushContainerExec (payload : List Char) : List ToolInvocation :=
  match jsonParse (String.mk payload) with
  | none => []
  | some parsed =>
    match parsed.get? "cmd" with
    | some (.arr elems) =>
      if (Json.arr elems).truthy then
        [⟨.str "run_command",
          .obj (match elems.getLast? with
                | some v => [("command", v)]
                | none => [])⟩]
      else []
    | _ => []

/-- Format 5: `to=container.exec ... |message|> \x7bcmd: [...]\x7d`. -/
def scanFormat5 (response : String) : List ToolInvocation :=
  scanLoop "to=container.exec".data channelPayload pushContainerExec
    (response.data.length + 1) response.data

/-- Format 6 body: a nonempty maximal word run (the captured tool name)
then the shared channel tail. The payload is paired with that name. -/
def fmt6Attempt (l : List Char) : Option ((List Char × List Char) × List Char) :=
  let word := l.takeWhile isWordChar
  if word.isEmpty then none
  else
    match channelPayload (l.drop word.length) with
    | some (payload, rest) => some ((word, payload), rest)
    | none => none

/-- Format 6 push: use the payload's own `tool`/`arguments` members when
both are truthy, otherwise the captured name with the whole payload as
arguments. -/
def pushRepoBrowser (word payload : List Char) : List ToolInvocation :=
  match jsonParse (String.mk payload) with
  | none => []
  | some parsed =>
    if jsTruthy (parsed.get? "tool") && jsTruthy (parsed.get? "arguments") then
      [⟨(parsed.get? "tool").getD .null, (parsed.get? "arguments").getD .null⟩]
    else if (String.mk word) ≠ "" then
      [⟨.str (String.mk word), parsed⟩]
    else []

/-- Format 6 scan loop (the capture forces a bespoke loop). -/
def scanFormat6Loop : Nat → List Char → List ToolInvocation
  | 0, _ => []
  | f + 1, l =>
    match findSub l "to=repo_browser.".data with
    | none => []
    | some i =>
      match fmt6Attempt (l.drop (i + 16)) with
      | some ((word, payload), rest) =>
        pushRepoBrowser word payload ++ scanFormat6Loop f rest
      | none => scanFormat6Loop f (l.drop (i + 1))

/-- Format 6: `to=repo_browser.toolname ... |message|> \x7b...\x7d`. -/
def scanFormat6 (response : String) : List ToolInvocation :=
  scanFormat6Loop (response.data.length + 1) response.data

/-- `parseToolCalls`, mirroring the source's sequential accumulation into
one `toolCalls` array: formats 1 and 2 always run; format 3 runs only
when the array is still empty after them; formats 4, 5 and 6 always
run. -/
def parseToolCalls (response : String) : List ToolInvocation :=
  let toolCalls : List ToolInvocation := []
  let toolCalls := toolCalls ++ scanFormat1 response
  let toolCalls := toolCalls ++ scanFormat2 response
  let toolCalls := if toolCalls.length = 0 then toolCalls ++ scanFormat3 response else toolCalls
  let toolCalls := toolCalls ++ scanFormat4 response
  let toolCalls := toolCalls ++ scanFormat5 response
  let toolCalls := toolCalls ++ scanFormat6 response
  toolCalls

/-! ### Fuzzy edit engine (`edit_file` tiers and `multi_edit_file` core) -/

/-- JavaScript `split('\n')` (structural, so that the kernel can
evaluate it on concrete inputs). -/
def splitNlGo : List Char → List Char → List String
  | [], acc => [String.mk acc.reverse]
  | c :: rest, acc =>
    if c = '\n' then String.mk acc.reverse :: splitNlGo rest []
    else splitNlGo rest (c :: acc)

def splitNl (s : String) : List String :=
  splitNlGo s.data []

/-- Collapse runs of spaces and tabs to a single space
(`replace(/[ \t]+/g, ' ')`). -/
def collapseWsGo : List Char → Bool → List Char
  | [], _ => []
  | c :: rest, inRun =>
    if c = ' ' || c = '\t' then
      if inRun then collapseWsGo rest true else ' ' :: collapseWsGo rest true
    else
      c :: collapseWsGo rest false

def collapseWs (s : String) : String :=
  String.mk (collapseWsGo s.data false)

/-- Normalize CRLF line endings to LF (`replace(/\r\n/g, '\n')`). -/
def normalizeLF (s : String) : String :=
  replaceAll s "\r\n" "\n"

/-- Restore CRLF line endings (`replace(/\n/g, '\r\n')`) when the
original file used them. -/
def restoreEol (hasCRLF : Bool) (s : String) : String :=
  if hasCRLF then replaceAll s "\n" "\r\n" else s

/-- One line of the whitespace-tier comparison:
`line.replace(/[ \t]+/g, ' ').trim()`. -/
def collapseTrim (s : String) : String :=
  jsTrim (collapseWs s)

/-- Whether the window of `oldLines.length` file lines starting at `i`
matches `oldLines` line by line after collapsing whitespace and
trimming. -/
def windowMatch (lines oldLines : List String) (i : Nat) : Bool :=
  (List.range oldLines.length).all
    (fun j => collapseTrim (lines.getD (i + j) "") == collapseTrim (oldLines.getD j ""))

/-- The first window start index, scanning
`for (i = 0; i <= lines.length - oldLines.length; i++)`; when the old
text has more lines than the file the loop body never runs. -/
def findWindow (lines oldLines : List String) : Option Nat :=
  (List.range (lines.length + 1 - oldLines.length)).find? (windowMatch lines oldLines)

/-- The no-match diagnostic of `edit_file`: a fixed message, plus a
`Similar at line k` hint naming the first file line whose lowercase form
contains the lowercase of the first 10 characters of the search
fragment (itself the first 20 characters of the old text's trimmed
first line), plus a fixed tip. -/
def mkNoMatchError (normalizedFileContent normalizedOldContent : String) : String :=
  let searchLine := strTake 20 (jsTrim ((splitNl normalizedOldContent).getD 0 ""))
  let lines := splitNl normalizedFileContent
  let needle := strTake 10 (jsToLower searchLine)
  let hint :=
    match (List.range lines.length).find?
        (fun i => strContains (jsToLower (lines.getD i "")) needle) with
    | some i =>
      "\nSimilar at line " ++ toString (i + 1) ++ ": \"" ++
        strTake 60 (jsTrim (lines.getD i "")) ++ "\""
    | none => ""
  "Content not found in file." ++ hint ++
    "\nTip: Use read_file first, then copy the EXACT text to edit."

inductive EditOutcome where
  | exactEdit (result : String)
  | fuzzyEdit (startIdx : Nat) (result : String)
  | noMatch (errMsg : String)
deriving DecidableEq

def EditOutcome.isNoMatch : EditOutcome → Bool
  | .noMatch _ => true
  | _ => false

/-- The pure three-tier replacement of the `edit_file` handler: line
endings are normalized to LF; tier 2 replaces the first exact occurrence;
tier 3 fires only when the whole collapsed (untrimmed) old text occurs in
the collapsed file text, and then splices the original new text over the
first line window matching after collapsing and trimming; otherwise the
diagnostic is produced. CRLF endings are restored on output. -/
def editFileCore (content oldContent newContent : String) : EditOutcome :=
  let hasCRLF := strContains content "\r\n"
  let normalizedFileContent := normalizeLF content
  let normalizedOldContent := normalizeLF oldContent
  let normalizedNewContent := normalizeLF newContent
  if strContains normalizedFileContent normalizedOldContent then
    .exactEdit (restoreEol hasCRLF
      (replaceFirst normalizedFileContent normalizedOldContent normalizedNewContent))
  else
    let wsNormalizedContent := collapseWs normalizedFileContent
    let wsNormalizedOld := collapseWs normalizedOldContent
    let fallback := EditOutcome.noMatch
      (mkNoMatchError normalizedFileContent normalizedOldContent)
    if strContains wsNormalizedContent wsNormalizedOld then
      let lines := splitNl normalizedFileContent
      let oldLines := splitNl normalizedOldContent
      match findWindow lines oldLines with
      | some startIdx =>
        let before := String.intercalate "\n" (lines.take startIdx)
        let after := String.intercalate "\n" (lines.drop (startIdx + oldLines.length))
        .fuzzyEdit startIdx (restoreEol hasCRLF
          (before ++ (if before ≠ "" then "\n" else "") ++ normalizedNewContent ++
            (if after ≠ "" then "\n" else "") ++ after))
      | none => fallback
    else fallback

/-- One `multi_edit_file` step: normalize the pair's line endings and
replace the first exact occurrence in the running content, or skip. -/
def multiEditStep (content : String) (edit : String × String) : String × Bool :=
  let normalizedOld := normalizeLF edit.1
  let normalizedNew := normalizeLF edit.2
  if strContains content normalizedOld then
    (replaceFirst content normalizedOld normalizedNew, true)
  else
    (content, false)

/-- The `multi_edit_file` loop over a running copy of the (already
LF-normalized) file content, counting applied edits. -/
def multiEditCore (content : String) (edits : List (String × String)) : String × Nat :=
  edits.foldl
    (fun acc e =>
      let step := multiEditStep acc.1 e
      (step.1, acc.2 + (if step.2 then 1 else 0)))
    (content, 0)

/-! ### Command safety classifier, translator, executor -/

/-- Unix to Windows command translation table, in source order. -/
def UNIX_TO_WINDOWS_COMMANDS : List (String × String) :=
  [("ls", "dir"),
   ("ls -la", "dir"),
   ("ls -l", "dir"),
   ("ls -a", "dir /a"),
   ("ls -al", "dir /a"),
   ("ls -lh", "dir"),
   ("cat", "type"),
   ("rm", "del"),
   ("rm -f", "del /f"),
   ("rm -r", "rmdir /s /q"),
   ("rm -rf", "rmdir /s /q"),
   ("cp", "copy"),
   ("cp -r", "xcopy /s /e"),
   ("mv", "move"),
   ("mkdir -p", "mkdir"),
   ("touch", "type nul >"),
   ("pwd", "cd"),
   ("clear", "cls"),
   ("grep", "findstr"),
   ("find", "dir /s /b"),
   ("head", "more"),
   ("tail", "more"),
   ("chmod", "echo Windows does not support chmod"),
   ("chown", "echo Windows does not support chown"),
   ("which", "where"),
   ("man", "help"),
   ("uname", "ver"),
   ("ps", "tasklist"),
   ("kill", "taskkill /PID"),
   ("df", "wmic logicaldisk get size,freespace,caption"),
   ("du", "dir /s"),
   ("ln", "mklink"),
   ("tar", "tar"),
   ("curl", "curl"),
   ("wget", "curl -O")]

/-- Windows to Unix command translation table, in source order. -/
def WINDOWS_TO_UNIX_COMMANDS : List (String × String) :=
  [("dir", "ls -la"),
   ("type", "cat"),
   ("del", "rm"),
   ("copy", "cp"),
   ("move", "mv"),
   ("cls", "clear"),
   ("findstr", "grep"),
   ("where", "which"),
   ("ver", "uname -a"),
   ("tasklist", "ps aux"),
   ("taskkill", "kill")]

def DANGEROUS_COMMANDS : List String :=
  ["rm -rf",
   "rm -r",
   "rmdir",
   "del /s",
   "rd /s",
   "format",
   "mkfs",
   "dd if=",
   ":()\x7b:|:&\x7d;:",
   "chmod -R 777",
   "chmod 777",
   "> /dev/sda",
   "mv /* ",
   "wget",
   "curl",
   "sudo",
   "su ",
   "shutdown",
   "reboot",
   "kill -9",
   "killall"]

def SAFE_COMMANDS : List String :=
  ["ls", "dir", "pwd", "cd", "echo", "cat", "type", "head", "tail",
   "grep", "find", "which", "where", "whoami", "date", "env",
   "node --version", "npm --version", "python --version", "git status",
   "git log", "git branch", "git diff", "npm list", "pip list"]

/-- Object-literal property lookup `translationMap[key]` followed by the
source's truthiness test (every table value is a nonempty string, so the
test succeeds exactly when the key is present; properties inherited from
the object prototype are not modelled). -/
def mapLookup (m : List (String × String)) (k : String) : Option String :=
  (m.find? (fun e => e.1 == k)).map (·.2)

/-- `translateCommand`: exact table match, else base-command scan in
table order, first matching the longest known command-plus-flags prefix,
else the bare base command; `none` when no entry applies. -/
def translateCommand (command : String) (toWindows : Bool) : Option String :=
  let translationMap :=
    if toWindows then UNIX_TO_WINDOWS_COMMANDS else WINDOWS_TO_UNIX_COMMANDS
  let trimmedCmd := jsTrim command
  match mapLookup translationMap trimmedCmd with
  | some v => some v
  | none =>
    let parts := splitWs trimmedCmd
    let baseCmd := parts.getD 0 ""
    let args := String.intercalate " " (parts.drop 1)
    firstSome
      (fun entry =>
        let unixParts := splitWs entry.1
        let unixBase := unixParts.getD 0 ""
        if baseCmd = unixBase then
          let cmdWithFlags := String.intercalate " " (parts.take unixParts.length)
          match mapLookup translationMap cmdWithFlags with
          | some w =>
            let remainingArgs := String.intercalate " " (parts.drop unixParts.length)
            some (w ++ (if remainingArgs ≠ "" then " " ++ remainingArgs else ""))
          | none =>
            match mapLookup translationMap unixBase with
            | some w => some (w ++ (if args ≠ "" then " " ++ args else ""))
            | none => none
        else none)
      translationMap

def isDangerousCommand (command : String) : Bool :=
  let lowerCmd := jsToLower command
  DANGEROUS_COMMANDS.any (fun dangerous => strContains lowerCmd dangerous)

def isSafeCommand (command : String) : Bool :=
  let lowerCmd := jsTrim (jsToLower command)
  SAFE_COMMANDS.any (fun safe => strStarts lowerCmd safe)

/-- A completed `runCommand` settlement: success flag, buffered stderr,
and the error message of the timeout / nonzero-exit / spawn-error cases.
The process itself is an oracle of the model. -/
structure RunResult where
  success : Bool
  stderrS : String := ""
  error : Option String := none

/-- The value `executeCommand` returns to its caller. -/
structure CmdResult where
  success : Bool
  error : Option String := none
  stderrS : Option String := none
deriving DecidableEq

inductive CmdEvent where
  | promptDangerous (command : String)
  | promptRun (command : String)
  | run (command : String)
deriving DecidableEq

def cancelResult : CmdResult :=
  { success := false, error := some "Command cancelled by user" }

def runToCmdResult (r : RunResult) : CmdResult :=
  { success := r.success, error := r.error, stderrS := some r.stderrS }

def CmdEvent.isRun : CmdEvent → Bool
  | .run _ => true
  | _ => false

/-- `result.stderr?.includes(...) || result.error?.includes('ENOENT')`
detection of a command-not-found failure. -/
def isCommandNotFoundResult (r : RunResult) : Bool :=
  strContains r.stderrS "is not recognized" ||
  strContains r.stderrS "not found" ||
  strContains r.stderrS "command not found" ||
  (match r.error with
   | some e => strContains e "ENOENT"
   | none => false)

/-- The two confirmation gates of `executeCommand`, in source order: the
dangerous-command prompt always comes first; the generic run prompt is
asked only when confirmation is required and the command is not
classified safe. Answers are consumed in prompt order; the result is
whether execution proceeds, plus the prompts asked. -/
def gateEval (finalCommand : String) (requireConfirmation : Bool) (answers : List Bool) :
    Bool × List CmdEvent :=
  let dangerous := isDangerousCommand finalCommand
  let dEvents := if dangerous then [CmdEvent.promptDangerous finalCommand] else []
  if dangerous && !(answers.getD 0 true) then
    (false, dEvents)
  else
    let needGeneric := requireConfirmation && !(isSafeCommand finalCommand)
    let gEvents := if needGeneric then [CmdEvent.promptRun finalCommand] else []
    let gIdx := if dangerous then 1 else 0
    if needGeneric && !(answers.getD gIdx true) then
      (false, dEvents ++ gEvents)
    else
      (true, dEvents ++ gEvents)

/-- The retry invocation `executeCommand(translatedCmd, {..., _isRetry:
true})`: pre-translation is skipped and the trailing retry block is dead
because `_isRetry` is set, so the run result is returned as is. -/
def executeCommandRetry (command : String) (requireConfirmation : Bool)
    (answers : List Bool) (host : String → RunResult) : CmdResult × List CmdEvent :=
  let finalCommand := command
  let gate := gateEval finalCommand requireConfirmation answers
  if gate.1 then
    (runToCmdResult (host finalCommand), gate.2 ++ [CmdEvent.run finalCommand])
  else
    (cancelResult, gate.2)

/-- The pre-translation of the first attempt: translate toward the host
platform and use the translation when it exists and differs. -/
def preTranslate (command : String) (isWindows : Bool) : String :=
  match translateCommand command isWindows with
  | some translated => if translated ≠ command then translated else command
  | none => command

/-- `executeCommand` on a first (non-retry) invocation: pre-translate,
run the two confirmation gates, spawn via the `host` oracle, and retry
once with the translated command when the failure looks like
command-not-found and the translation differs from what was run. -/
def executeCommand (command : String) (requireConfirmation : Bool)
    (answers : List Bool) (host : String → RunResult) (isWindows : Bool) :
    CmdResult × List CmdEvent :=
  let finalCommand := preTranslate command isWindows
  let gate := gateEval finalCommand requireConfirmation answers
  if gate.1 then
    let result := host finalCommand
    let evs := gate.2 ++ [CmdEvent.run finalCommand]
    if !result.success then
      match translateCommand command isWindows with
      | some translatedCmd =>
        if isCommandNotFoundResult result && translatedCmd ≠ finalCommand then
          let retry := executeCommandRetry translatedCmd requireConfirmation
            (answers.drop (gate.2.length)) host
          (retry.1, evs ++ retry.2)
        else
          (runToCmdResult result, evs)
      | none => (runToCmdResult result, evs)
    else
      (runToCmdResult result, evs)
  else
    (cancelResult, gate.2)

/-! ### Tool dispatcher (`executeTool`) for the file-editing tools

The filesystem is a path-to-content association (newest binding first),
side effects are recorded as events, and an uncaught JavaScript
exception is the `thrown` outcome. The handlers embedded are the three
the verified properties exercise; the remaining handlers of the source
dispatch are represented by the `unmodeled` outcome. -/

inductive FsEvent where
  | readF (path : String)
  | mkdirp (path : String)
  | writeF (path : String) (content : String)
  | prompt (message : String)
deriving DecidableEq

structure ToolResult where
  success : Bool
  error : Option String := none
  content : Option String := none
  editsApplied : Option Nat := none
deriving DecidableEq

inductive ToolOutcome where
  | ret (r : ToolResult)
  | thrown (msg : String)
  | unmodeled
deriving DecidableEq

abbrev Fs := List (String × String)

def fsRead (fs : Fs) (p : String) : Option String :=
  (fs.find? (fun e => e.1 == p)).map (·.2)

def fsWrite (fs : Fs) (p c : String) : Fs :=
  (p, c) :: fs

/-- `path.isAbsolute(p) ? p : path.join(cwd, p)` (POSIX, without the
join normalization, which no verified property depends on). -/
def resolvePath (cwd p : String) : String :=
  if strStarts p "/" then p else cwd ++ "/" ++ p

/-- `path.dirname` (POSIX approximation sufficient for the event
trace). -/
def jsDirname (p : String) : String :=
  match findSub p.data.reverse ['/'] with
  | none => "."
  | some i =>
    let keep := p.data.length - i - 1
    if keep = 0 then "/" else String.mk (p.data.take keep)

/-- `String(x)` coercion. The array and object cases are coarse
approximations (never reached by a verified property, which concern
string-valued arguments only). -/
def jsToString : Json → String
  | .null => "null"
  | .bool true => "true"
  | .bool false => "false"
  | .num n => toString n
  | .str s => s
  | .arr _ => ""
  | .obj _ => "[object Object]"

/-- `x === undefined || x === null`. -/
def isUndefOrNull : Option Json → Bool
  | none => true
  | some .null => true
  | some _ => false

/-- The `write_file` handler: resolve, read the existing file (for the
progress message), derive the line count from `args.content` (throwing
when it is not a string), confirm unless auto-approved, ensure the
parent directory, write. There is no required-argument validation. -/
def executeWriteFile (args : Json) (cwd : String) (autoApprove : Bool)
    (answers : List Bool) (fs : Fs) : ToolOutcome × Fs × List FsEvent :=
  match args.get? "path" with
  | some (.str p) =>
    let filePath := resolvePath cwd p
    let evs := [FsEvent.readF filePath]
    match args.get? "content" with
    | some (.str content) =>
      let write : List FsEvent → ToolOutcome × Fs × List FsEvent := fun evs =>
        (.ret { success := true }, fsWrite fs filePath content,
          evs ++ [FsEvent.mkdirp (jsDirname filePath),
                  FsEvent.mkdirp (jsDirname filePath),
                  FsEvent.writeF filePath content])
      if autoApprove then
        write evs
      else
        let evs := evs ++ [FsEvent.prompt "Apply?"]
        if answers.getD 0 true then
          write evs
        else
          (.ret { success := false, error := some "Cancelled" }, fs, evs)
    | _ => (.thrown "TypeError: args.content.split is not a function", fs, evs)
  | _ => (.thrown "TypeError: path argument must be a string", fs, [])

/-- The `edit_file` handler: validate the three required arguments,
read the file, run the three-tier engine, confirm unless auto-approved,
write the result; the no-match diagnostic leaves the file untouched. -/
def executeEditFile (args : Json) (cwd : String) (autoApprove : Bool)
    (answers : List Bool) (fs : Fs) : ToolOutcome × Fs × List FsEvent :=
  if !jsTruthy (args.get? "path") then
    (.ret { success := false, error := some "Missing required argument: path" }, fs, [])
  else if isUndefOrNull (args.get? "old_content") then
    (.ret { success := false, error := some "Missing required argument: old_content" }, fs, [])
  else if isUndefOrNull (args.get? "new_content") then
    (.ret { success := false, error := some "Missing required argument: new_content" }, fs, [])
  else
    match args.get? "path" with
    | some (.str p) =>
      let filePath := resolvePath cwd p
      match fsRead fs filePath with
      | none =>
        (.ret { success := false, error := some ("File not found: " ++ p) }, fs,
          [FsEvent.readF filePath])
      | some content =>
        let oldContent := jsToString ((args.get? "old_content").getD .null)
        let newContent := jsToString ((args.get? "new_content").getD .null)
        let finish : String → ToolOutcome × Fs × List FsEvent := fun res =>
          if autoApprove then
            (.ret { success := true }, fsWrite fs filePath res,
              [FsEvent.readF filePath, FsEvent.mkdirp (jsDirname filePath),
               FsEvent.writeF filePath res])
          else if answers.getD 0 true then
            (.ret { success := true }, fsWrite fs filePath res,
              [FsEvent.readF filePath, FsEvent.prompt "Apply?",
               FsEvent.mkdirp (jsDirname filePath), FsEvent.writeF filePath res])
          else
            (.ret { success := false, error := some "Cancelled" }, fs,
              [FsEvent.readF filePath, FsEvent.prompt "Apply?"])
        match editFileCore content oldContent newContent with
        | .exactEdit res => finish res
        | .fuzzyEdit _ res => finish res
        | .noMatch err =>
          (.ret { success := false, error := some err }, fs, [FsEvent.readF filePath])
    | _ => (.thrown "TypeError: path argument must be a string", fs, [])

/-- Extract the `\x7bold_content, new_content\x7d` string pairs of the
`edits` array; a missing or non-string member makes the loop throw
(caught by the handler's try block). -/
def editsOfJson (elems : List Json) : Option (List (String × String)) :=
  elems.mapM (fun e =>
    match e.get? "old_content", e.get? "new_content" with
    | some (.str o), some (.str n) => some (o, n)
    | _, _ => none)

/-- The `multi_edit_file` handler. The whole body sits in a try block,
so argument-shape exceptions surface as a failed result; the operation
fails when zero edits matched, and otherwise confirms (unless
auto-approved), writes, and reports the applied count. -/
def executeMultiEditFile (args : Json) (cwd : String) (autoApprove : Bool)
    (answers : List Bool) (fs : Fs) : ToolOutcome × Fs × List FsEvent :=
  match args.get? "path" with
  | some (.str p) =>
    let filePath := resolvePath cwd p
    match fsRead fs filePath with
    | none =>
      (.ret { success := false, error := some ("File not found: " ++ p) }, fs,
        [FsEvent.readF filePath])
    | some content0 =>
      let hasCRLF := strContains content0 "\r\n"
      let content1 := normalizeLF content0
      match args.get? "edits" with
      | some (.arr elems) =>
        match editsOfJson elems with
        | some edits =>
          let applied := multiEditCore content1 edits
          if applied.2 = 0 then
            (.ret { success := false, error := some "No matching content found for any edits" },
              fs, [FsEvent.readF filePath])
          else
            let finalContent := restoreEol hasCRLF applied.1
            if autoApprove then
              (.ret { success := true, editsApplied := some applied.2 },
                fsWrite fs filePath finalContent,
                [FsEvent.readF filePath, FsEvent.mkdirp (jsDirname filePath),
                 FsEvent.writeF filePath finalContent])
            else if answers.getD 0 true then
              (.ret { success := true, editsApplied := some applied.2 },
                fsWrite fs filePath finalContent,
                [FsEvent.readF filePath, FsEvent.prompt "Apply all edits?",
                 FsEvent.mkdirp (jsDirname filePath), FsEvent.writeF filePath finalContent])
            else
              (.ret { success := false, error := some "Cancelled" }, fs,
                [FsEvent.readF filePath, FsEvent.prompt "Apply all edits?"])
        | none =>
          (.ret { success := false, error := some "TypeError" }, fs, [FsEvent.readF filePath])
      | _ =>
        (.ret { success := false, error := some "TypeError" }, fs, [FsEvent.readF filePath])
  | _ => (.ret { success := false, error := some "TypeError" }, fs, [])

/-- The dispatcher switch restricted to the embedded handlers. -/
def executeTool (toolName : String) (args : Json) (cwd : String)
    (autoApprove : Bool) (answers : List Bool) (fs : Fs) :
    ToolOutcome × Fs × List FsEvent :=
  match toolName with
  | "write_file" => executeWriteFile args cwd autoApprove answers fs
  | "edit_file" => executeEditFile args cwd autoApprove answers fs
  | "multi_edit_file" => executeMultiEditFile args cwd autoApprove answers fs
  | _ => (.unmodeled, fs, [])

def FsEvent.isMutation : FsEvent → Bool
  | .writeF _ _ => true
  | .mkdirp _ => true
  | _ => false

/-! ### Chat turn result injection -/

structure ChatMsg where
  role : String
  content : String
deriving DecidableEq

/-- The post-stream block of `startChat`: for each executed invocation,
a successful result with truthy content pushes the assistant's full
response plus a synthetic user entry carrying the first 3000 characters
of the content; after the loop the assistant message is pushed (again)
unconditionally. Failures only print. -/
def injectToolResults (messages : List ChatMsg) (fullResponse : String)
    (results : List ToolResult) : List ChatMsg :=
  let messages := results.foldl
    (fun acc result =>
      if result.success then
        match result.content with
        | some c =>
          if c ≠ "" then
            acc ++ [⟨"assistant", fullResponse⟩,
                    ⟨"user", "[Tool Result]\n" ++ strTake 3000 c⟩]
          else acc
        | none => acc
      else acc)
    messages
  messages ++ [⟨"assistant", fullResponse⟩]

/-! ### Helper lemmas -/

/-- `find?` over `List.range` returns exactly the least index below the
bound satisfying the predicate. -/
theorem range_find?_eq_some (p : Nat → Bool) (n i : Nat) :
    (List.range n).find? p = some i ↔
      (i < n ∧ p i = true ∧ ∀ j, j < i → p j = false) := by
  rw [List.find?_eq_some_iff_getElem]
  constructor
  · rintro ⟨hp, k, hk, hget, hprev⟩
    have hki : k = i := by simpa using hget
    subst hki
    refine ⟨by simpa using hk, hp, ?_⟩
    intro j hj
    have h := hprev j hj
    simpa using h
  · rintro ⟨hin, hp, hprev⟩
    refine ⟨hp, i, by simpa using hin, by simp, ?_⟩
    intro j hj
    have h := hprev j hj
    simpa using h

/-- `find?` over `List.range` fails exactly when the predicate fails
below the bound. -/
theorem range_find?_eq_none (p : Nat → Bool) (n : Nat) :
    (List.range n).find? p = none ↔ ∀ j, j < n → p j = false := by
  rw [List.find?_eq_none]
  constructor
  · intro h j hj
    have := h j (List.mem_range.mpr hj)
    simpa using this
  · intro h x hx
    have := h x (List.mem_range.mp hx)
    simp [this]

/-- The confirmation gates never record a run event. -/
theorem gateEval_no_run (finalCommand : String) (rc : Bool) (answers : List Bool) :
    ((gateEval finalCommand rc answers).2.filter CmdEvent.isRun) = [] := by
  simp only [gateEval]
  split_ifs <;> simp [CmdEvent.isRun]

/-! ### Claim theorems -/

/-- C7: `isDangerousCommand` holds exactly when the lowercased command
contains a listed dangerous substring, `isSafeCommand` exactly when the
lowercased trimmed command starts with a listed safe prefix, and the
four representative verdicts come out as the specification states. -/
theorem C7_command_classifier :
    (∀ c : String, isDangerousCommand c = true ↔
        ∃ d ∈ DANGEROUS_COMMANDS, strContains (jsToLower c) d = true) ∧
    (∀ c : String, isSafeCommand c = true ↔
        ∃ s ∈ SAFE_COMMANDS, strStarts (jsTrim (jsToLower c)) s = true) ∧
    isDangerousCommand "rm -rf /" = true ∧
    isDangerousCommand "ls -la" = false ∧
    isSafeCommand "git status" = true ∧
    isSafeCommand "npm install lodash" = false := by
  refine ⟨?_, ?_, by decide, by decide, by decide, by decide⟩
  · intro c
    simp [isDangerousCommand, List.any_eq_true]
  · intro c
    simp [isSafeCommand, List.any_eq_true]

/-- The re-translation in the retry guard always agrees with the
pre-translated command, so `executeCommand` reduces to a single
gate-then-run pass. -/
theorem executeCommand_no_retry (cmd : String) (rc : Bool) (answers : List Bool)
    (host : String → RunResult) (isWin : Bool) :
    executeCommand cmd rc answers host isWin =
      (if (gateEval (preTranslate cmd isWin) rc answers).1 then
        (runToCmdResult (host (preTranslate cmd isWin)),
          (gateEval (preTranslate cmd isWin) rc answers).2 ++
            [CmdEvent.run (preTranslate cmd isWin)])
      else
        (cancelResult, (gateEval (preTranslate cmd isWin) rc answers).2)) := by
  have hpre : ∀ t, translateCommand cmd isWin = some t → t = preTranslate cmd isWin := by
    intro t ht
    unfold preTranslate
    rw [ht]
    by_cases h : t = cmd <;> simp [h]
  simp only [executeCommand]
  split
  · split
    · split
      · split
        · rename_i t ht hcond
          exfalso
          rw [hpre t ht] at hcond
          simp at hcond
        · rfl
      · rfl
    · rfl
  · rfl

/-- C10: a command can be classified both safe and dangerous (witnessed
by `cat sudoku.txt`), and for every command whose final form is both,
the dangerous gate is evaluated before the safe-command exemption: the
first prompt of the trace is the dangerous confirmation, and declining
it cancels the command. -/
theorem C10_dangerous_gate_first :
    (isSafeCommand "cat sudoku.txt" = true ∧
      isDangerousCommand "cat sudoku.txt" = true) ∧
    (∀ (cmd : String) (rc : Bool) (answers : List Bool)
        (host : String → RunResult) (isWin : Bool),
      isDangerousCommand (preTranslate cmd isWin) = true →
      isSafeCommand (preTranslate cmd isWin) = true →
      ((executeCommand cmd rc answers host isWin).2.headD (CmdEvent.run "") =
          CmdEvent.promptDangerous (preTranslate cmd isWin)) ∧
      (answers.getD 0 true = false →
        (executeCommand cmd rc answers host isWin).1 = cancelResult)) := by
  refine ⟨⟨by decide, by decide⟩, ?_⟩
  intro cmd rc answers host isWin hDang hSafe
  have hGate : gateEval (preTranslate cmd isWin) rc answers =
      (answers.getD 0 true, [CmdEvent.promptDangerous (preTranslate cmd isWin)]) := by
    unfold gateEval
    rw [hDang, hSafe]
    cases hAns : answers.getD 0 true <;> simp [hAns]
  rw [executeCommand_no_retry, hGate]
  cases hAns : answers.getD 0 true <;> simp [hAns]

/-- C5: the translate-and-retry branch of `executeCommand` is dead code:
the re-translation of the original command always coincides with the
pre-translated form that was already run (or there is no translation),
so every invocation spawns at most one process — in particular the
concrete not-found failure of the translated `dir` is returned after a
single attempt with no retry, although its not-found signature is
recognized. -/
theorem C5_retry_never_fires :
    (∀ (cmd : String) (isWin : Bool),
      (translateCommand cmd isWin).getD (preTranslate cmd isWin) =
        preTranslate cmd isWin) ∧
    (∀ (cmd : String) (rc : Bool) (answers : List Bool)
        (host : String → RunResult) (isWin : Bool),
      ((executeCommand cmd rc answers host isWin).2.filter CmdEvent.isRun).length ≤ 1) ∧
    (executeCommand "dir" true []
        (fun _ => { success := false, stderrS := "sh: ls: command not found" }) false =
      ({ success := false, stderrS := some "sh: ls: command not found" },
        [CmdEvent.run "ls -la"])) ∧
    isCommandNotFoundResult
      { success := false, stderrS := "sh: ls: command not found" } = true := by
  refine ⟨?_, ?_, by rfl, by decide⟩
  · intro cmd isWin
    unfold preTranslate
    cases h : translateCommand cmd isWin with
    | none => simp
    | some t => by_cases ht : t = cmd <;> simp [ht]
  · intro cmd rc answers host isWin
    rw [executeCommand_no_retry]
    have hGateRun := gateEval_no_run (preTranslate cmd isWin) rc answers
    split <;> simp [List.filter_append, hGateRun, CmdEvent.isRun]

/-- Witness for C10 at `cat sudoku.txt` (safe prefix `cat`, dangerous
substring `sudo` inside `sudoku`), declining the dangerous prompt. -/
theorem C10_dangerous_gate_first_witness :
    ((executeCommand "cat sudoku.txt" true [false] (fun _ => { success := true }) false).2.headD
        (CmdEvent.run "") =
      CmdEvent.promptDangerous (preTranslate "cat sudoku.txt" false)) ∧
    (executeCommand "cat sudoku.txt" true [false] (fun _ => { success := true }) false).1 =
      cancelResult := by
  have h := C10_dangerous_gate_first.2 "cat sudoku.txt" true [false]
    (fun _ => { success := true }) false (by decide) (by decide)
  exact ⟨h.1, h.2 (by decide)⟩

/-- C4 (amended): a declined file-tool confirmation returns
`success:false` with error `Cancelled` and mutates nothing, while a
declined shell-command confirmation — dangerous gate or generic gate —
returns the distinct error `Command cancelled by user` and spawns
nothing. -/
theorem C4_cancellation_kinds :
    (∀ (cwd p c : String) (answers : List Bool) (fs : Fs),
      answers.getD 0 true = false →
      executeTool "write_file" (.obj [("path", .str p), ("content", .str c)])
          cwd false answers fs =
        (.ret { success := false, error := some "Cancelled" }, fs,
          [FsEvent.readF (resolvePath cwd p), FsEvent.prompt "Apply?"])) ∧
    (∀ (cmd : String) (rc : Bool) (answers : List Bool)
        (host : String → RunResult) (isWin : Bool),
      isDangerousCommand (preTranslate cmd isWin) = true →
      answers.getD 0 true = false →
      executeCommand cmd rc answers host isWin =
        (cancelResult, [CmdEvent.promptDangerous (preTranslate cmd isWin)])) ∧
    (∀ (cmd : String) (answers : List Bool) (host : String → RunResult) (isWin : Bool),
      isDangerousCommand (preTranslate cmd isWin) = false →
      isSafeCommand (preTranslate cmd isWin) = false →
      answers.getD 0 true = false →
      executeCommand cmd true answers host isWin =
        (cancelResult, [CmdEvent.promptRun (preTranslate cmd isWin)])) ∧
    cancelResult.error = some "Command cancelled by user" := by
  refine ⟨?_, ?_, ?_, rfl⟩
  · intro cwd p c answers fs hAns
    simp [executeTool, executeWriteFile, Json.get?, hAns]
    simpa [List.getD] using hAns
  · intro cmd rc answers host isWin hDang hAns
    have hGate : gateEval (preTranslate cmd isWin) rc answers =
        (false, [CmdEvent.promptDangerous (preTranslate cmd isWin)]) := by
      unfold gateEval
      rw [hDang, hAns]
      simp
    rw [executeCommand_no_retry, hGate]
    simp
  · intro cmd answers host isWin hDang hSafe hAns
    have hGate : gateEval (preTranslate cmd isWin) true answers =
        (false, [CmdEvent.promptRun (preTranslate cmd isWin)]) := by
      unfold gateEval
      rw [hDang, hSafe, hAns]
      simp
      simpa [List.getD] using hAns
    rw [executeCommand_no_retry, hGate]
    simp

/-- Counterexample for C4 as stated: declining the confirmation of a
shell command yields `Command cancelled by user`, not the `Cancelled`
error kind shared by the file tools. -/
theorem C4_counterexample :
    (executeCommand "rm -rf /tmp/x" true [false] (fun _ => { success := true }) false).1 =
      { success := false, error := some "Command cancelled by user" } ∧
    ({ success := false, error := some "Command cancelled by user" } : CmdResult) ≠
      { success := false, error := some "Cancelled" } :=
  ⟨by rfl, by decide⟩

/-- Witness for C4: a declined `write_file`, a declined dangerous
command, and a declined generic command, at concrete inputs. -/
theorem C4_cancellation_kinds_witness :
    executeTool "write_file" (.obj [("path", .str "a.txt"), ("content", .str "x")])
        "/w" false [false] [] =
      (.ret { success := false, error := some "Cancelled" }, [],
        [FsEvent.readF "/w/a.txt", FsEvent.prompt "Apply?"]) ∧
    executeCommand "rm -rf /tmp/x" true [false] (fun _ => { success := true }) false =
      (cancelResult, [CmdEvent.promptDangerous "rm -rf /tmp/x"]) ∧
    executeCommand "npm install lodash" true [false] (fun _ => { success := true }) false =
      (cancelResult, [CmdEvent.promptRun "npm install lodash"]) := by
  have h1 := C4_cancellation_kinds.1 "/w" "a.txt" "x" [false] [] (by decide)
  have h2 := C4_cancellation_kinds.2.1 "rm -rf /tmp/x" true [false]
    (fun _ => { success := true }) false (by decide) (by decide)
  have h3 := C4_cancellation_kinds.2.2.1 "npm install lodash" [false]
    (fun _ => { success := true }) false (by decide) (by decide) (by decide)
  have hp2 : preTranslate "rm -rf /tmp/x" false = "rm -rf /tmp/x" := by decide
  have hp3 : preTranslate "npm install lodash" false = "npm install lodash" := by decide
  rw [hp2] at h2
  rw [hp3] at h3
  exact ⟨by simpa using h1, h2, h3⟩

/-- C3 (amended): a turn whose single executed invocation succeeded
with nonempty textual content appends the model response twice — once
paired with the synthetic result entry inside the injection loop and
once by the unconditional post-loop save — with exactly one synthetic
entry in between. -/
theorem C3_response_injection (msgs : List ChatMsg) (r c : String)
    (result : ToolResult) (hs : result.success = true)
    (hc : result.content = some c) (hne : c ≠ "") :
    injectToolResults msgs r [result] =
      msgs ++ [⟨"assistant", r⟩, ⟨"user", "[Tool Result]\n" ++ strTake 3000 c⟩,
               ⟨"assistant", r⟩] := by
  simp [injectToolResults, hs, hc, hne]

/-- Counterexample for C3 as stated: with one successful
content-producing invocation, the model-response entry appears twice in
the appended history, not exactly once. -/
theorem C3_counterexample :
    injectToolResults [] "resp" [{ success := true, content := some "out" }] =
      [⟨"assistant", "resp"⟩, ⟨"user", "[Tool Result]\nout"⟩, ⟨"assistant", "resp"⟩] ∧
    ((injectToolResults [] "resp" [{ success := true, content := some "out" }]).filter
        (fun m => m = ⟨"assistant", "resp"⟩)).length = 2 :=
  ⟨by decide, by decide⟩

/-- Witness for C3 at a concrete turn. -/
theorem C3_response_injection_witness :
    injectToolResults [] "r2" [{ success := true, content := some "ok" }] =
      [⟨"assistant", "r2"⟩, ⟨"user", "[Tool Result]\nok"⟩, ⟨"assistant", "r2"⟩] := by
  have h := C3_response_injection [] "r2" "ok"
    { success := true, content := some "ok" } rfl rfl (by decide)
  exact h.trans (by decide)

/-- C2 (amended): required-argument validation exists only in the
`edit_file` handler, which reports the missing field without touching
the filesystem; `write_file` invoked without its required `content`
first reads the target path and then throws a `TypeError` instead of
returning a missing-argument result. -/
theorem C2_argument_validation :
    (∀ (args : Json) (cwd : String) (auto : Bool) (ans : List Bool) (fs : Fs),
      jsTruthy (args.get? "path") = false →
      executeTool "edit_file" args cwd auto ans fs =
        (.ret { success := false, error := some "Missing required argument: path" },
          fs, [])) ∧
    (∀ (args : Json) (cwd : String) (auto : Bool) (ans : List Bool) (fs : Fs),
      jsTruthy (args.get? "path") = true →
      isUndefOrNull (args.get? "old_content") = true →
      executeTool "edit_file" args cwd auto ans fs =
        (.ret { success := false, error := some "Missing required argument: old_content" },
          fs, [])) ∧
    (∀ (args : Json) (cwd : String) (auto : Bool) (ans : List Bool) (fs : Fs),
      jsTruthy (args.get? "path") = true →
      isUndefOrNull (args.get? "old_content") = false →
      isUndefOrNull (args.get? "new_content") = true →
      executeTool "edit_file" args cwd auto ans fs =
        (.ret { success := false, error := some "Missing required argument: new_content" },
          fs, [])) ∧
    (∀ (p cwd : String) (auto : Bool) (ans : List Bool) (fs : Fs),
      executeTool "write_file" (.obj [("path", .str p)]) cwd auto ans fs =
        (.thrown "TypeError: args.content.split is not a function", fs,
          [FsEvent.readF (resolvePath cwd p)])) := by
  refine ⟨?_, ?_, ?_, ?_⟩
  · intro args cwd auto ans fs h
    simp [executeTool, executeEditFile, h]
  · intro args cwd auto ans fs hPath hOld
    simp [executeTool, executeEditFile, hPath, hOld]
  · intro args cwd auto ans fs hPath hOld hNew
    simp [executeTool, executeEditFile, hPath, hOld, hNew]
  · intro p cwd auto ans fs
    rfl

/-- Counterexample for C2 as stated: `write_file` without `content`
does not return the missing-argument result — it reads the target file
and then throws. -/
theorem C2_counterexample :
    executeTool "write_file" (.obj [("path", .str "/tmp/a.txt")]) "/w" true [] [] =
      (.thrown "TypeError: args.content.split is not a function", [],
        [FsEvent.readF "/tmp/a.txt"]) ∧
    (ToolOutcome.thrown "TypeError: args.content.split is not a function" ≠
      .ret { success := false, error := some "Missing required argument: content" }) :=
  ⟨by rfl, by decide⟩

/-- Witness for C2 at concrete invocations of each validated field and
of the unvalidated `write_file`. -/
theorem C2_argument_validation_witness :
    executeTool "edit_file" (.obj []) "/w" true [] [] =
      (.ret { success := false, error := some "Missing required argument: path" }, [], []) ∧
    executeTool "edit_file" (.obj [("path", .str "f")]) "/w" true [] [] =
      (.ret { success := false, error := some "Missing required argument: old_content" },
        [], []) ∧
    executeTool "edit_file" (.obj [("path", .str "f"), ("old_content", .str "x")])
        "/w" true [] [] =
      (.ret { success := false, error := some "Missing required argument: new_content" },
        [], []) ∧
    executeTool "write_file" (.obj [("path", .str "g")]) "/w2" true [] [] =
      (.thrown "TypeError: args.content.split is not a function", [],
        [FsEvent.readF "/w2/g"]) := by
  refine ⟨?_, ?_, ?_, ?_⟩
  · exact C2_argument_validation.1 (.obj []) "/w" true [] [] (by decide)
  · exact C2_argument_validation.2.1 (.obj [("path", .str "f")]) "/w" true [] []
      (by decide) (by decide)
  · exact C2_argument_validation.2.2.1
      (.obj [("path", .str "f"), ("old_content", .str "x")]) "/w" true [] []
      (by decide) (by decide) (by decide)
  · exact C2_argument_validation.2.2.2 "g" "/w2" true [] []

/-- Build the `edits` argument array of a `multi_edit_file`
invocation. -/
def editsToJson (edits : List (String × String)) : Json :=
  .arr (edits.map (fun e =>
    .obj [("old_content", .str e.1), ("new_content", .str e.2)]))

theorem editsOfJson_editsToJson (edits : List (String × String)) :
    editsOfJson (edits.map (fun e =>
      Json.obj [("old_content", .str e.1), ("new_content", .str e.2)])) = some edits := by
  induction edits with
  | nil => rfl
  | cons e es ih =>
    simp only [List.map_cons, editsOfJson, List.mapM_cons]
    simp only [editsOfJson] at ih
    rw [ih]
    rfl

/-- C8: `multi_edit_file` applies, against a running copy, exactly the
pairs whose normalized old content occurs exactly in the running
content (skipped pairs change nothing and are never escalated to the
whitespace tier); the auto-approved operation fails exactly when zero
pairs matched, and otherwise writes the accumulated text and reports
the applied count. -/
theorem C8_multi_edit (cwd p content : String) (edits : List (String × String))
    (answers : List Bool) (fs : Fs)
    (hfile : fsRead fs (resolvePath cwd p) = some content) :
    (executeTool "multi_edit_file"
        (.obj [("path", .str p), ("edits", editsToJson edits)]) cwd true answers fs =
      (if (multiEditCore (normalizeLF content) edits).2 = 0 then
        (.ret { success := false, error := some "No matching content found for any edits" },
          fs, [FsEvent.readF (resolvePath cwd p)])
      else
        (.ret { success := true
                editsApplied := some (multiEditCore (normalizeLF content) edits).2 },
          fsWrite fs (resolvePath cwd p)
            (restoreEol (strContains content "\r\n")
              (multiEditCore (normalizeLF content) edits).1),
          [FsEvent.readF (resolvePath cwd p),
           FsEvent.mkdirp (jsDirname (resolvePath cwd p)),
           FsEvent.writeF (resolvePath cwd p)
             (restoreEol (strContains content "\r\n")
               (multiEditCore (normalizeLF content) edits).1)]))) ∧
    (∀ (c : String) (e : String × String),
      strContains c (normalizeLF e.1) = false → multiEditStep c e = (c, false)) ∧
    (∀ (c : String) (e : String × String),
      strContains c (normalizeLF e.1) = true →
      multiEditStep c e = (replaceFirst c (normalizeLF e.1) (normalizeLF e.2), true)) ∧
    (∀ (c : String) (es : List (String × String)) (e : String × String),
      multiEditCore c (es ++ [e]) =
        ((multiEditStep (multiEditCore c es).1 e).1,
          (multiEditCore c es).2 +
            if (multiEditStep (multiEditCore c es).1 e).2 then 1 else 0)) := by
  refine ⟨?_, ?_, ?_, ?_⟩
  · have hedits := editsOfJson_editsToJson edits
    simp only [executeTool, executeMultiEditFile, editsToJson]
    have hpath : Json.get? (.obj [("path", .str p), ("edits",
        .arr (edits.map (fun e =>
          Json.obj [("old_content", .str e.1), ("new_content", .str e.2)])))]) "path" =
        some (.str p) := rfl
    have he : Json.get? (.obj [("path", .str p), ("edits",
        .arr (edits.map (fun e =>
          Json.obj [("old_content", .str e.1), ("new_content", .str e.2)])))]) "edits" =
        some (.arr (edits.map (fun e =>
          Json.obj [("old_content", .str e.1), ("new_content", .str e.2)]))) := rfl
    simp only [hpath, hfile, he, hedits]
    split <;> simp
  · intro c e h
    simp [multiEditStep, h]
  · intro c e h
    simp [multiEditStep, h]
  · intro c es e
    simp [multiEditCore, List.foldl_append]

/-- Witness for C8: one matching and one non-matching pair against a
concrete file; the second pair is skipped and the operation reports one
applied edit. -/
theorem C8_multi_edit_witness :
    executeTool "multi_edit_file"
        (.obj [("path", .str "f.txt"), ("edits", editsToJson [("X", "Y"), ("Q", "R")])])
        "/w" true [] [("/w/f.txt", "aXb")] =
      (.ret { success := true, editsApplied := some 1 },
        [("/w/f.txt", "aYb"), ("/w/f.txt", "aXb")],
        [FsEvent.readF "/w/f.txt", FsEvent.mkdirp "/w", FsEvent.writeF "/w/f.txt" "aYb"]) := by
  have h := (C8_multi_edit "/w" "f.txt" "aXb" [("X", "Y"), ("Q", "R")] []
    [("/w/f.txt", "aXb")] (by rfl)).1
  exact h.trans (by decide)

/-- C6 (amended): when the exact tier fails, the whitespace tier fires
only under the additional gate that the collapsed (untrimmed) old text
occurs as a substring of the collapsed file text; it then replaces the
first line window matching after collapsing and trimming with the
original new text, joining the preceding and following line blocks with
a separating newline only when they are nonempty strings. -/
theorem C6_whitespace_tier (content oldContent newContent : String) (i : Nat)
    (hx : strContains (normalizeLF content) (normalizeLF oldContent) = false)
    (hg : strContains (collapseWs (normalizeLF content))
        (collapseWs (normalizeLF oldContent)) = true)
    (hi : i + (splitNl (normalizeLF oldContent)).length ≤
        (splitNl (normalizeLF content)).length)
    (hw : windowMatch (splitNl (normalizeLF content))
        (splitNl (normalizeLF oldContent)) i = true)
    (hleast : ∀ j, j < i → windowMatch (splitNl (normalizeLF content))
        (splitNl (normalizeLF oldContent)) j = false) :
    editFileCore content oldContent newContent =
      .fuzzyEdit i (restoreEol (strContains content "\r\n")
        (String.intercalate "\n" ((splitNl (normalizeLF content)).take i) ++
          (if String.intercalate "\n" ((splitNl (normalizeLF content)).take i) ≠ ""
            then "\n" else "") ++
          normalizeLF newContent ++
          (if String.intercalate "\n" ((splitNl (normalizeLF content)).drop
              (i + (splitNl (normalizeLF oldContent)).length)) ≠ ""
            then "\n" else "") ++
          String.intercalate "\n" ((splitNl (normalizeLF content)).drop
            (i + (splitNl (normalizeLF oldContent)).length)))) := by
  have hfw : findWindow (splitNl (normalizeLF content))
      (splitNl (normalizeLF oldContent)) = some i := by
    unfold findWindow
    rw [range_find?_eq_some]
    exact ⟨by omega, hw, hleast⟩
  simp [editFileCore, hx, hg, hfw]

/-- Counterexample for C6 as stated: the file `a` and old text
`a `(trailing space) have a line window that matches after collapsing
and trimming, and the exact tier fails, yet the edit fails with the
no-match diagnostic because the collapsed-substring gate is untrimmed. -/
theorem C6_counterexample :
    strContains (normalizeLF "a") (normalizeLF "a ") = false ∧
    windowMatch (splitNl (normalizeLF "a")) (splitNl (normalizeLF "a ")) 0 = true ∧
    (editFileCore "a" "a " "b").isNoMatch = true := by
  decide

/-- Witness for C6: the specification's own tier-3 example, a file line
`foo  =   1` matched by old text `foo = 1`. -/
theorem C6_whitespace_tier_witness :
    editFileCore "foo  =   1" "foo = 1" "bar" = .fuzzyEdit 0 "bar" := by
  have h := C6_whitespace_tier "foo  =   1" "foo = 1" "bar" 0 (by decide) (by decide)
    (by decide) (by decide) (fun j hj => absurd hj (Nat.not_lt_zero j))
  exact h.trans (by decide)

/-- C9 (amended): a no-match outcome carries a fixed `Content not
found` message that does not embed the search fragment; when some file
line's lowercase form contains the lowercase of the first 10 characters
of the fragment (the first 20 characters of the old text's trimmed
first line), the diagnostic names the 1-indexed number and a 60-character
preview of the first such line; and a no-match outcome of the
`edit_file` handler never writes to the filesystem. -/
theorem C9_no_match_diagnostic (content oldContent newContent err : String)
    (h : editFileCore content oldContent newContent = .noMatch err) :
    (err = mkNoMatchError (normalizeLF content) (normalizeLF oldContent)) ∧
    (∀ k, k < (splitNl (normalizeLF content)).length →
      strContains (jsToLower ((splitNl (normalizeLF content)).getD k ""))
        (strTake 10 (jsToLower (strTake 20 (jsTrim
          ((splitNl (normalizeLF oldContent)).getD 0 ""))))) = true →
      (∀ j, j < k →
        strContains (jsToLower ((splitNl (normalizeLF content)).getD j ""))
          (strTake 10 (jsToLower (strTake 20 (jsTrim
            ((splitNl (normalizeLF oldContent)).getD 0 ""))))) = false) →
      err = "Content not found in file." ++
        ("\nSimilar at line " ++ toString (k + 1) ++ ": \"" ++
          strTake 60 (jsTrim ((splitNl (normalizeLF content)).getD k "")) ++ "\"") ++
        "\nTip: Use read_file first, then copy the EXACT text to edit.") ∧
    ((∀ j, j < (splitNl (normalizeLF content)).length →
      strContains (jsToLower ((splitNl (normalizeLF content)).getD j ""))
        (strTake 10 (jsToLower (strTake 20 (jsTrim
          ((splitNl (normalizeLF oldContent)).getD 0 ""))))) = false) →
      err = "Content not found in file." ++
        "\nTip: Use read_file first, then copy the EXACT text to edit.") ∧
    (∀ (p cwd : String) (auto : Bool) (ans : List Bool) (fs : Fs),
      p ≠ "" →
      fsRead fs (resolvePath cwd p) = some content →
      executeTool "edit_file"
          (.obj [("path", .str p), ("old_content", .str oldContent),
                 ("new_content", .str newContent)]) cwd auto ans fs =
        (.ret { success := false, error := some err }, fs,
          [FsEvent.readF (resolvePath cwd p)])) := by
  have herr : err = mkNoMatchError (normalizeLF content) (normalizeLF oldContent) := by
    simp only [editFileCore] at h
    cases h1 : strContains (normalizeLF content) (normalizeLF oldContent) with
    | true => simp [h1] at h
    | false =>
      cases h2 : strContains (collapseWs (normalizeLF content))
          (collapseWs (normalizeLF oldContent)) with
      | false => simp [h1, h2] at h; exact h.symm
      | true =>
        cases hfw : findWindow (splitNl (normalizeLF content))
            (splitNl (normalizeLF oldContent)) with
        | some j => simp [h1, h2, hfw] at h
        | none => simp [h1, h2, hfw] at h; exact h.symm
  subst herr
  refine ⟨rfl, ?_, ?_, ?_⟩
  · intro k hk hcont hfirst
    have hf : (List.range ((splitNl (normalizeLF content)).length)).find?
        (fun i => strContains (jsToLower ((splitNl (normalizeLF content)).getD i ""))
          (strTake 10 (jsToLower (strTake 20 (jsTrim
            ((splitNl (normalizeLF oldContent)).getD 0 "")))))) = some k :=
      (range_find?_eq_some _ _ _).mpr ⟨hk, hcont, hfirst⟩
    simp only [mkNoMatchError, hf]
  · intro hnone
    have hf : (List.range ((splitNl (normalizeLF content)).length)).find?
        (fun i => strContains (jsToLower ((splitNl (normalizeLF content)).getD i ""))
          (strTake 10 (jsToLower (strTake 20 (jsTrim
            ((splitNl (normalizeLF oldContent)).getD 0 "")))))) = none :=
      (range_find?_eq_none _ _).mpr hnone
    simp only [mkNoMatchError, hf]
    simp
  · intro p cwd auto ans fs hp hfile
    have hpne : (p != "") = true := by simpa using hp
    simp only [executeTool, executeEditFile, Json.get?]
    simp only [List.reverse_cons, List.reverse_nil]
    simp [jsTruthy, Json.truthy, hpne, isUndefOrNull, hfile, jsToString, h]

/-- Counterexample for C9 as stated: with old text `hello world` absent
from the file `xyz` in any form, the diagnostic is the bare fixed
message and does not contain the first ~20 characters of the old
text's first line. -/
theorem C9_counterexample :
    editFileCore "xyz" "hello world" "n" =
      .noMatch "Content not found in file.\nTip: Use read_file first, then copy the EXACT text to edit." ∧
    strContains
      "Content not found in file.\nTip: Use read_file first, then copy the EXACT text to edit."
      (strTake 20 (jsTrim "hello world")) = false :=
  ⟨rfl, by decide⟩

/-- Witness for C9: the no-match outcome of a concrete `edit_file`
invocation reports the fixed diagnostic and leaves the filesystem
untouched. -/
theorem C9_no_match_diagnostic_witness :
    executeTool "edit_file"
        (.obj [("path", .str "f.txt"), ("old_content", .str "hello world"),
               ("new_content", .str "n")]) "/w" true [] [("/w/f.txt", "xyz")] =
      (.ret { success := false
              error := some "Content not found in file.\nTip: Use read_file first, then copy the EXACT text to edit." },
        [("/w/f.txt", "xyz")], [FsEvent.readF "/w/f.txt"]) := by
  have h := (C9_no_match_diagnostic "xyz" "hello world" "n"
      "Content not found in file.\nTip: Use read_file first, then copy the EXACT text to edit."
      (by rfl)).2.2.2 "f.txt" "/w" true [] [("/w/f.txt", "xyz")] (by decide) (by rfl)
  exact h

/-- C1 (amended): formats 1, 2, 4, 5 and 6 are each scanned over the
full text independently and their invocations concatenated in format
order, but format 3 (bare JSON objects) is scanned only when formats 1
and 2 together produced no invocations. -/
theorem C1_format3_not_independent (response : String) :
    parseToolCalls response =
      scanFormat1 response ++ scanFormat2 response ++
      (if (scanFormat1 response ++ scanFormat2 response).length = 0
        then scanFormat3 response else []) ++
      scanFormat4 response ++ scanFormat5 response ++ scanFormat6 response := by
  simp only [parseToolCalls, List.nil_append]
  split_ifs <;> simp [List.append_assoc]

/-- A response carrying both a well-formed fenced tool call (format 1)
and a well-formed bare JSON tool call (format 3). -/
def respC1 : String :=
  "```json\n\x7b\"tool\": \"read_file\", \"arguments\": \x7b\"path\": \"a.txt\"\x7d\x7d\n```\nThen \x7b\"tool\": \"git_status\", \"arguments\": \x7b\x7d\x7d"

set_option maxRecDepth 8192 in
/-- Counterexample for C1 as stated: the format-3 scan of the response
does discover the bare `git_status` invocation, yet `parseToolCalls`
returns only the fenced `read_file` invocation — the bare one is
dropped because format 3 runs only when formats 1 and 2 found
nothing. -/
theorem C1_counterexample :
    parseToolCalls respC1 =
      [⟨.str "read_file", .obj [("path", .str "a.txt")]⟩] ∧
    scanFormat3 respC1 =
      [⟨.str "read_file", .obj [("path", .str "a.txt")]⟩,
       ⟨.str "git_status", .obj []⟩] :=
  ⟨rfl, rfl⟩

end MyLocalCLI
